import Mathlib

/-!
A shallow embedding of the vector-store synchronization engine of
`src/code/modules/vector_store.py` (class `VectorStoreManager`), together with
proofs about its change detection, rebuild policy, metadata bookkeeping and
failure handling.

Modelling conventions:
* Python `float` timestamps are modelled as `Int` (the code only ever compares
  them for equality), Python `int` as `Int`.
* The filesystem, the PDF loader/splitter and the FAISS library are modelled by
  an explicit environment `Env`: `scan` is the (deterministic, per-pass) result
  of `_scan_pdf_files`, `load` gives each file's post-split chunk texts (or a
  missing-file / loader-exception outcome), and the `Fails` flags inject the
  exceptions the code catches (`add_documents`, `FAISS.from_documents`,
  `merge_from`, `save_local`).
* A FAISS index is modelled extensionally by the list of chunks it holds
  (`Index = List Chunk`): `from_documents` builds the list, `add_documents`
  and `merge_from` append.
* The metadata JSON file is modelled at the JSON-value level: `json.dump`
  stores the JSON value produced by `encodeTable`, `json.load` yields it back
  (text-level printing/parsing belongs to Python's `json` library, not to this
  repository).  A file holding invalid JSON is the `corrupt` constructor.
-/

namespace VectorStore

/-- One entry of `file_metadata.json`, as built by `_scan_pdf_files`. -/
structure FileInfo where
  absolute_path : String
  size : Int
  modified_time : Int
  hash : String
  last_processed : Option String
  deriving DecidableEq, Repr

/-- The fingerprint table: a Python dict, modelled as an association list
(relative path → FileInfo); real dicts have unique keys. -/
abbrev FingerprintTable := List (String × FileInfo)

/-- Python dict lookup `t[p]` / `t.get(p)`. -/
def lookupTable : FingerprintTable → String → Option FileInfo
  | [], _ => none
  | e :: rest, p => if e.1 = p then some e.2 else lookupTable rest p

/-- Python dict assignment `t[k] = v`: replaces the value in place if the key
is present, appends otherwise. -/
def insertEntry : FingerprintTable → String → FileInfo → FingerprintTable
  | [], k, v => [(k, v)]
  | e :: rest, k, v => if e.1 = k then (k, v) :: rest else e :: insertEntry rest k v

/-- The JSON values the metadata file can hold (only the constructors the
fingerprint format uses). -/
inductive Json where
  | null
  | str (s : String)
  | num (n : Int)
  | obj (members : List (String × Json))

/-- JSON encoding of one fingerprint entry (the dict written by
`_save_file_metadata` via `json.dump`). -/
def encodeFileInfo (fi : FileInfo) : Json :=
  Json.obj [("absolute_path", Json.str fi.absolute_path),
            ("size", Json.num fi.size),
            ("modified_time", Json.num fi.modified_time),
            ("hash", Json.str fi.hash),
            ("last_processed",
              match fi.last_processed with
              | none => Json.null
              | some s => Json.str s)]

/-- JSON encoding of a whole fingerprint table. -/
def encodeTable (t : FingerprintTable) : Json :=
  Json.obj (t.map fun e => (e.1, encodeFileInfo e.2))

/-- Decoding of one fingerprint entry back from JSON. -/
def decodeFileInfo : Json → Option FileInfo
  | Json.obj [("absolute_path", Json.str ap),
              ("size", Json.num sz),
              ("modified_time", Json.num mt),
              ("hash", Json.str h),
              ("last_processed", lp)] =>
    match lp with
    | Json.null => some ⟨ap, sz, mt, h, none⟩
    | Json.str s => some ⟨ap, sz, mt, h, some s⟩
    | _ => none
  | _ => none

/-- Decoding of a fingerprint table from JSON.  `json.load` returns the parsed
value unvalidated; in every run of the repository the stored value is an image
of `encodeTable` (the only writer), on which this decoding is lossless (see the
round-trip theorem below). -/
def decodeTable : Json → FingerprintTable
  | Json.obj ms => ms.filterMap fun m => (decodeFileInfo m.2).map fun fi => (m.1, fi)
  | _ => []

/-- The state of the metadata file on disk. -/
inductive MetaFile where
  | absent
  | corrupt
  | stored (j : Json)

/-- `_get_file_metadata`: returns the parsed table plus whether the
JSONDecodeError warning was logged.  A missing file yields `{}`; a corrupt file
is caught, logged as a warning and yields `{}`. -/
def get_file_metadata : MetaFile → FingerprintTable × Bool
  | MetaFile.absent => ([], false)
  | MetaFile.corrupt => ([], true)
  | MetaFile.stored j => (decodeTable j, false)

/-- `_save_file_metadata`: `json.dump` of the table. -/
def save_file_metadata (t : FingerprintTable) : MetaFile :=
  MetaFile.stored (encodeTable t)

/-- `check_file_changes`, on its two inputs (`stored_metadata` from
`_get_file_metadata`, `current_files` from `_scan_pdf_files`): returns
`(new_files, modified_files, deleted_files)`. -/
def check_file_changes (stored current : FingerprintTable) :
    List String × List String × List String :=
  let new_files := (current.filter fun e => (lookupTable stored e.1).isNone).map Prod.fst
  let modified_files := current.filterMap fun e =>
    match lookupTable stored e.1 with
    | none => none
    | some si =>
      if e.2.hash ≠ si.hash ∨ e.2.modified_time ≠ si.modified_time
      then some e.1 else none
  let deleted_files := (stored.filter fun e => (lookupTable current e.1).isNone).map Prod.fst
  (new_files, modified_files, deleted_files)

/-- One text chunk absorbed into the index: the `source_file` metadata the
code attaches plus the chunk text produced by the splitter. -/
structure Chunk where
  source_file : String
  content : String
  deriving DecidableEq, Repr

/-- A FAISS index, modelled extensionally by the chunks it holds. -/
abbrev Index := List Chunk

/-- The outcome of `PyMuPDFLoader(...).load()` + splitting for one file:
the file may be gone (`os.path.exists` false → warning, skip), the loader may
raise (error logged, skip), or it yields the post-split chunk texts. -/
inductive LoadResult where
  | missing
  | failed
  | ok (texts : List String)

/-- The environment of one synchronization pass: the filesystem scan, the
per-file loader outcome, the injected exceptions of the external FAISS calls,
and the clock (`datetime.now().isoformat()`). -/
structure Env where
  scan : List (String × FileInfo)
  load : String → LoadResult
  addFails : Bool
  fromDocsFails : Bool
  mergeFails : Bool
  saveFails : Bool
  now : String

/-- The persisted index files (`index.faiss` + `index.pkl`): absent, present
but failing to deserialize, or holding an index. -/
inductive IndexFile where
  | absent
  | corrupt
  | stored (idx : Index)

/-- The durable state owned by one `VectorStoreManager`. -/
structure Disk where
  indexFile : IndexFile
  metaFile : MetaFile

/-- The constructor options that matter to the sync engine. -/
structure Config where
  rebuild_on_delete : Bool
  delete_threshold : Int

/-- `_load_and_split_documents`: per file, a missing file or a loader error is
skipped with a log message; otherwise its split chunks, tagged with
`source_file`, are appended. -/
def load_and_split_documents (env : Env) : List String → List Chunk
  | [] => []
  | p :: rest =>
    (match env.load p with
     | LoadResult.missing => []
     | LoadResult.failed => []
     | LoadResult.ok texts => texts.map fun t => { source_file := p, content := t })
    ++ load_and_split_documents env rest

/-- `create_vectorstore_from_files`: returns the built index (none on empty
input, no produced documents, or a `FAISS.from_documents` exception) together
with the number of chunks handed to the embedding API. -/
def create_vectorstore_from_files (env : Env) (file_paths : List String) :
    Option Index × Nat :=
  if file_paths = [] then (none, 0)
  else
    let documents := load_and_split_documents env file_paths
    if documents = [] then (none, 0)
    else if env.fromDocsFails then (none, documents.length)
    else (some documents, documents.length)

/-- `_rebuild_vectorstore_from_existing_files`: re-scans and rebuilds from all
currently existing files. -/
def rebuild_vectorstore_from_existing_files (env : Env) : Option Index × Nat :=
  let all_files := (env.scan.map Prod.fst)
  if all_files = [] then (none, 0)
  else create_vectorstore_from_files env all_files

/-- Result of `update_vectorstore`, with an execution trace: whether the
rebuild branch ran (`_rebuild_vectorstore_from_existing_files` was called),
how many chunks were handed to the embedding API, and how many
build-fresh-and-merge fallback attempts were made. -/
structure UpdResult where
  vectorstore : Index
  rebuildInvoked : Bool
  embedded : Nat
  fallbacks : Nat
  deriving Repr

/-- The second half of `update_vectorstore` (the `files_to_add` block): try
`add_documents`; on an exception, make one fallback attempt that builds a fresh
index from the same files and merges it in; a merge exception is only logged.
Returns the store plus (embedded chunks, fallback attempts). -/
def add_new_documents (env : Env) (vectorstore : Index) (files_to_add : List String) :
    Index × Nat × Nat :=
  if files_to_add = [] then (vectorstore, 0, 0)
  else
    let new_documents := load_and_split_documents env files_to_add
    if new_documents = [] then (vectorstore, 0, 0)
    else if env.addFails = false then (vectorstore ++ new_documents, new_documents.length, 0)
    else
      match create_vectorstore_from_files env files_to_add with
      | (some temp, n) =>
        if env.mergeFails then (vectorstore, new_documents.length + n, 1)
        else (vectorstore ++ temp, new_documents.length + n, 1)
      | (none, n) => (vectorstore, new_documents.length + n, 1)

/-- `update_vectorstore`: if files were deleted and the rebuild policy fires
(`rebuild_on_delete` and `len(deleted_files) >= delete_threshold`), rebuild
from all existing files — returning the *original* store early if the rebuild
yields nothing — and then process `new_files + modified_files`. -/
def update_vectorstore (cfg : Config) (env : Env) (vectorstore : Index)
    (new_files modified_files deleted_files : List String) : UpdResult :=
  if deleted_files ≠ [] ∧ cfg.rebuild_on_delete = true ∧
      (deleted_files.length : Int) ≥ cfg.delete_threshold then
    match rebuild_vectorstore_from_existing_files env with
    | (some rebuilt, n) =>
      let r := add_new_documents env rebuilt (new_files ++ modified_files)
      ⟨r.1, true, n + r.2.1, r.2.2⟩
    | (none, n) => ⟨vectorstore, true, n, 0⟩
  else
    let r := add_new_documents env vectorstore (new_files ++ modified_files)
    ⟨r.1, false, r.2.1, r.2.2⟩

/-- `load_vectorstore`: a missing or undeserializable index loads as `None`. -/
def load_vectorstore : IndexFile → Option Index
  | IndexFile.absent => none
  | IndexFile.corrupt => none
  | IndexFile.stored idx => some idx

/-- `save_vectorstore`: `save_local`; an exception is logged and re-raised.
(Partial on-disk writes of the index payload are outside the model; the claims
about save failure concern the fingerprint table.) -/
def save_vectorstore (env : Env) (d : Disk) (vs : Index) : Except Unit Disk :=
  if env.saveFails then Except.error ()
  else Except.ok { d with indexFile := IndexFile.stored vs }

/-- One step of the `update_file_metadata` loop: a processed file still present
in the scan gets its scanned fingerprint stored with `last_processed` set. -/
def processedInsert (env : Env) (acc : FingerprintTable) (p : String) : FingerprintTable :=
  match lookupTable env.scan p with
  | some fi => insertEntry acc p { fi with last_processed := some env.now }
  | none => acc

/-- `update_file_metadata`: update the entries of the processed files from the
current scan, drop every entry whose file no longer exists, save. -/
def update_file_metadata (env : Env) (mf : MetaFile) (processed_files : List String) :
    MetaFile :=
  let stored_metadata := (get_file_metadata mf).1
  let updated := processed_files.foldl (processedInsert env) stored_metadata
  let cleaned := updated.filter fun e => (lookupTable env.scan e.1).isSome
  save_file_metadata cleaned

/-- Result of `get_or_create_vectorstore`: the returned value (or the
propagated save exception), the resulting durable state, and the trace. -/
structure SyncResult where
  result : Except Unit (Option Index)
  disk : Disk
  rebuildInvoked : Bool
  embedded : Nat
  fallbacks : Nat

/-- `get_or_create_vectorstore`: load the persisted index, compute the change
set; with no usable index, bootstrap from all scanned files; with changes,
apply `update_vectorstore`, save, and update the metadata of
`new_files + modified_files`; otherwise reuse the loaded index untouched.
A `save_vectorstore` exception propagates to the caller. -/
def get_or_create_vectorstore (cfg : Config) (env : Env) (disk : Disk) : SyncResult :=
  let vectorstore := load_vectorstore disk.indexFile
  let stored := (get_file_metadata disk.metaFile).1
  let changes := check_file_changes stored env.scan
  let new_files := changes.1
  let modified_files := changes.2.1
  let deleted_files := changes.2.2
  match vectorstore with
  | none =>
    let all_files := env.scan.map Prod.fst
    if all_files = [] then ⟨Except.ok none, disk, false, 0, 0⟩
    else
      match create_vectorstore_from_files env all_files with
      | (none, n) => ⟨Except.ok none, disk, false, n, 0⟩
      | (some vs, n) =>
        match save_vectorstore env disk vs with
        | Except.error e => ⟨Except.error e, disk, false, n, 0⟩
        | Except.ok d1 =>
          let d2 := { d1 with metaFile := update_file_metadata env d1.metaFile all_files }
          ⟨Except.ok (some vs), d2, false, n, 0⟩
  | some vs =>
    if new_files ≠ [] ∨ modified_files ≠ [] ∨ deleted_files ≠ [] then
      let u := update_vectorstore cfg env vs new_files modified_files deleted_files
      match save_vectorstore env disk u.vectorstore with
      | Except.error e => ⟨Except.error e, disk, u.rebuildInvoked, u.embedded, u.fallbacks⟩
      | Except.ok d1 =>
        let d2 := { d1 with
          metaFile := update_file_metadata env d1.metaFile (new_files ++ modified_files) }
        ⟨Except.ok (some u.vectorstore), d2, u.rebuildInvoked, u.embedded, u.fallbacks⟩
    else ⟨Except.ok (some vs), disk, false, 0, 0⟩

/-! ### Association-list lemmas -/

theorem lookupTable_eq_none (t : FingerprintTable) (p : String) :
    lookupTable t p = none ↔ p ∉ t.map Prod.fst := by
  induction t with
  | nil => simp [lookupTable]
  | cons e rest ih =>
    by_cases h : e.1 = p
    · subst h; simp [lookupTable]
    · simp [lookupTable, h, Ne.symm h, ih]

theorem lookupTable_isSome (t : FingerprintTable) (p : String) :
    (lookupTable t p).isSome = true ↔ p ∈ t.map Prod.fst := by
  rw [Option.isSome_iff_ne_none, ne_eq, lookupTable_eq_none, not_not]

theorem lookupTable_mem {t : FingerprintTable} {p : String} {fi : FileInfo}
    (h : lookupTable t p = some fi) : (p, fi) ∈ t := by
  induction t with
  | nil => simp [lookupTable] at h
  | cons e rest ih =>
    by_cases he : e.1 = p
    · subst he
      simp [lookupTable] at h
      subst h
      exact List.mem_cons_self _ _
    · simp [lookupTable, he] at h
      exact List.mem_cons_of_mem _ (ih h)

theorem lookupTable_eq_some_of_mem {t : FingerprintTable}
    (hnd : (t.map Prod.fst).Nodup) {p : String} {fi : FileInfo} (h : (p, fi) ∈ t) :
    lookupTable t p = some fi := by
  induction t with
  | nil => simp at h
  | cons e rest ih =>
    simp only [List.map_cons, List.nodup_cons] at hnd
    rcases List.mem_cons.mp h with h1 | h1
    · subst h1; simp [lookupTable]
    · have hne : e.1 ≠ p := by
        intro hc
        exact hnd.1 (hc ▸ (List.mem_map.mpr ⟨(p, fi), h1, rfl⟩))
      simp [lookupTable, hne]
      exact ih hnd.2 h1

theorem lookup_insertEntry_self (t : FingerprintTable) (k : String) (v : FileInfo) :
    lookupTable (insertEntry t k v) k = some v := by
  induction t with
  | nil => simp [insertEntry, lookupTable]
  | cons e rest ih =>
    by_cases h : e.1 = k <;> simp [insertEntry, h, lookupTable, ih]

theorem lookup_insertEntry_ne (t : FingerprintTable) (k : String) (v : FileInfo)
    {p : String} (h : p ≠ k) : lookupTable (insertEntry t k v) p = lookupTable t p := by
  induction t with
  | nil => simp [insertEntry, lookupTable, Ne.symm h]
  | cons e rest ih =>
    by_cases he : e.1 = k
    · subst he
      have hep : e.1 ≠ p := Ne.symm h
      simp [insertEntry, lookupTable, hep]
    · by_cases hp : e.1 = p <;> simp [insertEntry, he, lookupTable, hp, h, ih]

theorem lookup_filter_scanKey (env : Env) (t : FingerprintTable) (p : String) :
    lookupTable (t.filter fun e => (lookupTable env.scan e.1).isSome) p =
      if (lookupTable env.scan p).isSome then lookupTable t p else none := by
  induction t with
  | nil => simp [lookupTable]
  | cons e rest ih =>
    by_cases he : e.1 = p
    · subst he
      by_cases hP : (lookupTable env.scan e.1).isSome <;>
        simp [List.filter_cons, hP, lookupTable, ih]
    · by_cases hP : (lookupTable env.scan e.1).isSome <;>
        simp [List.filter_cons, hP, lookupTable, he, ih]

/-! ### JSON round trip -/

theorem decodeFileInfo_encodeFileInfo (fi : FileInfo) :
    decodeFileInfo (encodeFileInfo fi) = some fi := by
  cases fi with
  | mk ap sz mt h lp => cases lp <;> rfl

theorem decodeTable_encodeTable (t : FingerprintTable) :
    decodeTable (encodeTable t) = t := by
  induction t with
  | nil => rfl
  | cons e rest ih =>
    simp only [encodeTable, List.map_cons, decodeTable, List.filterMap_cons,
      decodeFileInfo_encodeFileInfo, Option.map_some']
    simpa [encodeTable, decodeTable] using ih

/-! ### Change-set membership -/

theorem mem_new_files (stored current : FingerprintTable) (p : String) :
    p ∈ (check_file_changes stored current).1 ↔
      (∃ fi, (p, fi) ∈ current) ∧ lookupTable stored p = none := by
  simp only [check_file_changes, List.mem_map, List.mem_filter]
  constructor
  · rintro ⟨e, ⟨hmem, hnone⟩, rfl⟩
    exact ⟨⟨e.2, by simpa using hmem⟩, Option.isNone_iff_eq_none.mp hnone⟩
  · rintro ⟨⟨fi, hmem⟩, hnone⟩
    exact ⟨(p, fi), ⟨hmem, by simp [hnone]⟩, rfl⟩

theorem mem_modified_files (stored current : FingerprintTable) (p : String) :
    p ∈ (check_file_changes stored current).2.1 ↔
      ∃ fi, (p, fi) ∈ current ∧ ∃ si, lookupTable stored p = some si ∧
        (fi.hash ≠ si.hash ∨ fi.modified_time ≠ si.modified_time) := by
  simp only [check_file_changes, List.mem_filterMap]
  constructor
  · rintro ⟨e, hmem, hf⟩
    split at hf
    · exact absurd hf (by simp)
    · next si hsi =>
      split at hf
      · next hc =>
        obtain rfl : e.1 = p := by simpa using hf
        exact ⟨e.2, by simpa using hmem, si, hsi, hc⟩
      · exact absurd hf (by simp)
  · rintro ⟨fi, hmem, si, hsi, hc⟩
    refine ⟨(p, fi), hmem, ?_⟩
    rw [hsi]
    show (if fi.hash ≠ si.hash ∨ fi.modified_time ≠ si.modified_time
      then some p else none) = some p
    exact if_pos hc

theorem mem_deleted_files (stored current : FingerprintTable) (p : String) :
    p ∈ (check_file_changes stored current).2.2 ↔
      (∃ si, (p, si) ∈ stored) ∧ lookupTable current p = none := by
  simp only [check_file_changes, List.mem_map, List.mem_filter]
  constructor
  · rintro ⟨e, ⟨hmem, hnone⟩, rfl⟩
    exact ⟨⟨e.2, by simpa using hmem⟩, Option.isNone_iff_eq_none.mp hnone⟩
  · rintro ⟨⟨si, hmem⟩, hnone⟩
    exact ⟨(p, si), ⟨hmem, by simp [hnone]⟩, rfl⟩

/-- The table "covers" the scan: every scanned file has a stored entry agreeing
on hash and modification time, and every stored entry's file is still scanned.
This is the postcondition a successful sync pass establishes. -/
def tableMatchesScan (t scan : FingerprintTable) : Prop :=
  (∀ p fi, lookupTable scan p = some fi →
    ∃ si, lookupTable t p = some si ∧ si.hash = fi.hash ∧
      si.modified_time = fi.modified_time) ∧
  (∀ e ∈ t, (lookupTable scan e.1).isSome = true)

theorem check_file_changes_eq_nil {t scan : FingerprintTable}
    (hnd : (scan.map Prod.fst).Nodup) (h : tableMatchesScan t scan) :
    check_file_changes t scan = ([], [], []) := by
  have h1 : (check_file_changes t scan).1 = [] := by
    rw [List.eq_nil_iff_forall_not_mem]
    intro p hp
    rw [mem_new_files] at hp
    obtain ⟨⟨fi, hmem⟩, hnone⟩ := hp
    obtain ⟨si, hsi, -⟩ := h.1 p fi (lookupTable_eq_some_of_mem hnd hmem)
    rw [hnone] at hsi; cases hsi
  have h2 : (check_file_changes t scan).2.1 = [] := by
    rw [List.eq_nil_iff_forall_not_mem]
    intro p hp
    rw [mem_modified_files] at hp
    obtain ⟨fi, hmem, si, hsi, hc⟩ := hp
    obtain ⟨si', hsi', hh, hm⟩ := h.1 p fi (lookupTable_eq_some_of_mem hnd hmem)
    rw [hsi] at hsi'
    cases hsi'
    rcases hc with hc | hc
    · exact hc hh.symm
    · exact hc hm.symm
  have h3 : (check_file_changes t scan).2.2 = [] := by
    rw [List.eq_nil_iff_forall_not_mem]
    intro p hp
    rw [mem_deleted_files] at hp
    obtain ⟨⟨si, hmem⟩, hnone⟩ := hp
    have := h.2 (p, si) hmem
    rw [hnone] at this; cases this
  exact Prod.ext h1 (Prod.ext h2 h3)

/-! ### The metadata-update loop -/

theorem lookup_foldl_processedInsert_not_mem (env : Env) (processed : List String)
    (acc : FingerprintTable) {p : String} (h : p ∉ processed) :
    lookupTable (processed.foldl (processedInsert env) acc) p = lookupTable acc p := by
  induction processed generalizing acc with
  | nil => rfl
  | cons q rest ih =>
    simp only [List.mem_cons, not_or] at h
    rw [List.foldl_cons, ih _ h.2]
    unfold processedInsert
    rcases lookupTable env.scan q with _ | fi
    · rfl
    · exact lookup_insertEntry_ne _ _ _ h.1

theorem lookup_foldl_processedInsert_mem (env : Env) (processed : List String)
    (acc : FingerprintTable) {p : String} {fi : FileInfo}
    (hp : p ∈ processed) (hscan : lookupTable env.scan p = some fi) :
    lookupTable (processed.foldl (processedInsert env) acc) p =
      some { fi with last_processed := some env.now } := by
  induction processed generalizing acc with
  | nil => cases hp
  | cons q rest ih =>
    rw [List.foldl_cons]
    by_cases hq : p ∈ rest
    · exact ih _ hq
    · have hpq : p = q := by
        rcases List.mem_cons.mp hp with h | h
        · exact h
        · exact absurd h hq
      subst hpq
      rw [lookup_foldl_processedInsert_not_mem env rest _ hq]
      unfold processedInsert
      rw [hscan]
      exact lookup_insertEntry_self _ _ _

theorem lookup_foldl_processedInsert_isSome (env : Env) (processed : List String)
    (acc : FingerprintTable) (p : String) :
    (lookupTable (processed.foldl (processedInsert env) acc) p).isSome = true ↔
      (lookupTable acc p).isSome = true ∨
        (p ∈ processed ∧ (lookupTable env.scan p).isSome = true) := by
  induction processed generalizing acc with
  | nil => simp
  | cons q rest ih =>
    rw [List.foldl_cons, ih]
    by_cases hpq : p = q
    · subst hpq
      unfold processedInsert
      rcases hq : lookupTable env.scan p with _ | fi
      · simp [hq]
      · simp [hq, lookup_insertEntry_self]
    · unfold processedInsert
      rcases hq : lookupTable env.scan q with _ | fi
      · simp [hpq]
      · rw [lookup_insertEntry_ne _ _ _ hpq]
        simp [hpq]

/-- The parsed content of the metadata file. -/
def metaTable (mf : MetaFile) : FingerprintTable := (get_file_metadata mf).1

theorem metaTable_update_file_metadata (env : Env) (mf : MetaFile)
    (processed : List String) :
    metaTable (update_file_metadata env mf processed) =
      (processed.foldl (processedInsert env) (metaTable mf)).filter
        (fun e => (lookupTable env.scan e.1).isSome) := by
  simp [update_file_metadata, metaTable, save_file_metadata, get_file_metadata,
    decodeTable_encodeTable]

theorem lookup_update_file_metadata_mem (env : Env) (mf : MetaFile)
    (processed : List String) {p : String} {fi : FileInfo}
    (hp : p ∈ processed) (hscan : lookupTable env.scan p = some fi) :
    lookupTable (metaTable (update_file_metadata env mf processed)) p =
      some { fi with last_processed := some env.now } := by
  rw [metaTable_update_file_metadata, lookup_filter_scanKey,
    if_pos (by simp [hscan]), lookup_foldl_processedInsert_mem env processed _ hp hscan]

theorem lookup_update_file_metadata_not_mem (env : Env) (mf : MetaFile)
    (processed : List String) {p : String} (hp : p ∉ processed) :
    lookupTable (metaTable (update_file_metadata env mf processed)) p =
      if (lookupTable env.scan p).isSome then lookupTable (metaTable mf) p
      else none := by
  rw [metaTable_update_file_metadata, lookup_filter_scanKey,
    lookup_foldl_processedInsert_not_mem env processed _ hp]

theorem lookup_update_file_metadata_isSome (env : Env) (mf : MetaFile)
    (processed : List String) (p : String) :
    (lookupTable (metaTable (update_file_metadata env mf processed)) p).isSome = true ↔
      (lookupTable env.scan p).isSome = true ∧
        ((lookupTable (metaTable mf) p).isSome = true ∨ p ∈ processed) := by
  rw [metaTable_update_file_metadata, lookup_filter_scanKey]
  by_cases hs : (lookupTable env.scan p).isSome = true
  · rw [if_pos hs, lookup_foldl_processedInsert_isSome]
    simp [hs]
  · rw [if_neg hs]
    simp [hs]

/-! ### Path lemmas for `get_or_create_vectorstore` -/

theorem gocv_noop (cfg : Config) (env : Env) (disk : Disk) (vs : Index)
    (hload : load_vectorstore disk.indexFile = some vs)
    (hcs : check_file_changes (metaTable disk.metaFile) env.scan = ([], [], [])) :
    get_or_create_vectorstore cfg env disk =
      ⟨Except.ok (some vs), disk, false, 0, 0⟩ := by
  have hcs' : check_file_changes ((get_file_metadata disk.metaFile).1) env.scan
      = ([], [], []) := hcs
  simp [get_or_create_vectorstore, hload, hcs']

theorem gocv_changes_saveFail (cfg : Config) (env : Env) (disk : Disk) (vs : Index)
    (n m d : List String)
    (hload : load_vectorstore disk.indexFile = some vs)
    (hcs : check_file_changes (metaTable disk.metaFile) env.scan = (n, m, d))
    (hne : n ≠ [] ∨ m ≠ [] ∨ d ≠ [])
    (hsf : env.saveFails = true) :
    get_or_create_vectorstore cfg env disk =
      ⟨Except.error (), disk,
        (update_vectorstore cfg env vs n m d).rebuildInvoked,
        (update_vectorstore cfg env vs n m d).embedded,
        (update_vectorstore cfg env vs n m d).fallbacks⟩ := by
  have hcs' : check_file_changes ((get_file_metadata disk.metaFile).1) env.scan
      = (n, m, d) := hcs
  simp [get_or_create_vectorstore, hload, hcs', hne, save_vectorstore, hsf]

theorem gocv_changes_saveOk (cfg : Config) (env : Env) (disk : Disk) (vs : Index)
    (n m d : List String)
    (hload : load_vectorstore disk.indexFile = some vs)
    (hcs : check_file_changes (metaTable disk.metaFile) env.scan = (n, m, d))
    (hne : n ≠ [] ∨ m ≠ [] ∨ d ≠ [])
    (hsf : env.saveFails = false) :
    get_or_create_vectorstore cfg env disk =
      ⟨Except.ok (some (update_vectorstore cfg env vs n m d).vectorstore),
        ⟨IndexFile.stored (update_vectorstore cfg env vs n m d).vectorstore,
          update_file_metadata env disk.metaFile (n ++ m)⟩,
        (update_vectorstore cfg env vs n m d).rebuildInvoked,
        (update_vectorstore cfg env vs n m d).embedded,
        (update_vectorstore cfg env vs n m d).fallbacks⟩ := by
  have hcs' : check_file_changes ((get_file_metadata disk.metaFile).1) env.scan
      = (n, m, d) := hcs
  simp [get_or_create_vectorstore, hload, hcs', hne, save_vectorstore, hsf]

theorem gocv_bootstrap_emptyScan (cfg : Config) (env : Env) (disk : Disk)
    (hload : load_vectorstore disk.indexFile = none)
    (hscan : env.scan = []) :
    get_or_create_vectorstore cfg env disk = ⟨Except.ok none, disk, false, 0, 0⟩ := by
  simp [get_or_create_vectorstore, hload, hscan]

theorem gocv_bootstrap_createNone (cfg : Config) (env : Env) (disk : Disk) (nn : Nat)
    (hload : load_vectorstore disk.indexFile = none)
    (hscan : env.scan ≠ [])
    (hcreate : create_vectorstore_from_files env (env.scan.map Prod.fst) = (none, nn)) :
    get_or_create_vectorstore cfg env disk = ⟨Except.ok none, disk, false, nn, 0⟩ := by
  simp [get_or_create_vectorstore, hload, hscan, hcreate]

theorem gocv_bootstrap_saveFail (cfg : Config) (env : Env) (disk : Disk)
    (vs : Index) (nn : Nat)
    (hload : load_vectorstore disk.indexFile = none)
    (hscan : env.scan ≠ [])
    (hcreate : create_vectorstore_from_files env (env.scan.map Prod.fst) = (some vs, nn))
    (hsf : env.saveFails = true) :
    get_or_create_vectorstore cfg env disk = ⟨Except.error (), disk, false, nn, 0⟩ := by
  simp [get_or_create_vectorstore, hload, hscan, hcreate, save_vectorstore, hsf]

theorem gocv_bootstrap_ok (cfg : Config) (env : Env) (disk : Disk)
    (vs : Index) (nn : Nat)
    (hload : load_vectorstore disk.indexFile = none)
    (hscan : env.scan ≠ [])
    (hcreate : create_vectorstore_from_files env (env.scan.map Prod.fst) = (some vs, nn))
    (hsf : env.saveFails = false) :
    get_or_create_vectorstore cfg env disk =
      ⟨Except.ok (some vs),
        ⟨IndexFile.stored vs,
          update_file_metadata env disk.metaFile (env.scan.map Prod.fst)⟩,
        false, nn, 0⟩ := by
  simp [get_or_create_vectorstore, hload, hscan, hcreate, save_vectorstore, hsf]

/-! ### A completed write pass leaves the table matching the scan -/

theorem tableMatchesScan_bootstrap (env : Env) (mf : MetaFile) :
    tableMatchesScan
      (metaTable (update_file_metadata env mf (env.scan.map Prod.fst))) env.scan := by
  constructor
  · intro p fi hscan
    have hp : p ∈ env.scan.map Prod.fst :=
      (lookupTable_isSome _ _).mp (by simp [hscan])
    exact ⟨{ fi with last_processed := some env.now },
      lookup_update_file_metadata_mem env mf _ hp hscan, rfl, rfl⟩
  · intro e he
    rw [metaTable_update_file_metadata] at he
    exact (List.mem_filter.mp he).2

theorem tableMatchesScan_incremental (env : Env) (mf : MetaFile)
    (n m d : List String)
    (hcs : check_file_changes (metaTable mf) env.scan = (n, m, d)) :
    tableMatchesScan (metaTable (update_file_metadata env mf (n ++ m))) env.scan := by
  constructor
  · intro p fi hscan
    by_cases hp : p ∈ n ++ m
    · exact ⟨{ fi with last_processed := some env.now },
        lookup_update_file_metadata_mem env mf _ hp hscan, rfl, rfl⟩
    · rw [List.mem_append, not_or] at hp
      have hmem : (p, fi) ∈ env.scan := lookupTable_mem hscan
      have hn : ¬ p ∈ (check_file_changes (metaTable mf) env.scan).1 := by
        rw [hcs]; exact hp.1
      rw [mem_new_files] at hn
      push_neg at hn
      rcases hsi : lookupTable (metaTable mf) p with _ | si
      · exact absurd hsi (hn ⟨fi, hmem⟩)
      · have hm : ¬ p ∈ (check_file_changes (metaTable mf) env.scan).2.1 := by
          rw [hcs]; exact hp.2
        rw [mem_modified_files] at hm
        push_neg at hm
        have heq := hm fi hmem si hsi
        refine ⟨si, ?_, heq.1.symm, heq.2.symm⟩
        rw [lookup_update_file_metadata_not_mem env mf _
          (by rw [List.mem_append]; tauto)]
        simp [hscan, hsi]
  · intro e he
    rw [metaTable_update_file_metadata] at he
    exact (List.mem_filter.mp he).2

/-- C5. Idempotence: if a synchronization pass completes and returns an index,
an immediately following pass over an unchanged filesystem reuses the loaded
index as-is, leaves the durable state (in particular the fingerprint table)
identical, performs zero embedding calls, and triggers neither the rebuild
branch nor the fallback. -/
theorem sync_idempotent (cfg : Config) (env env2 : Env) (disk : Disk) (v : Index)
    (hnd : (env.scan.map Prod.fst).Nodup)
    (hscan : env2.scan = env.scan)
    (h1 : (get_or_create_vectorstore cfg env disk).result = Except.ok (some v)) :
    get_or_create_vectorstore cfg env2 (get_or_create_vectorstore cfg env disk).disk =
      ⟨Except.ok (some v), (get_or_create_vectorstore cfg env disk).disk, false, 0, 0⟩ := by
  rcases hload : load_vectorstore disk.indexFile with _ | vs
  · -- bootstrap paths
    by_cases hscan0 : env.scan = []
    · rw [gocv_bootstrap_emptyScan cfg env disk hload hscan0] at h1
      exact absurd h1 (by simp)
    · rcases hcreate : create_vectorstore_from_files env (env.scan.map Prod.fst)
        with ⟨_ | vs, nn⟩
      · rw [gocv_bootstrap_createNone cfg env disk nn hload hscan0 hcreate] at h1
        exact absurd h1 (by simp)
      · rcases hsf : env.saveFails with _ | _
        · have hr1 := gocv_bootstrap_ok cfg env disk vs nn hload hscan0 hcreate hsf
          rw [hr1] at h1 ⊢
          dsimp only at h1 ⊢
          obtain rfl : v = vs := by simpa using h1.symm
          refine gocv_noop cfg env2
            ⟨IndexFile.stored v,
              update_file_metadata env disk.metaFile (env.scan.map Prod.fst)⟩
            v rfl ?_
          rw [hscan]
          exact check_file_changes_eq_nil hnd (tableMatchesScan_bootstrap env disk.metaFile)
        · rw [gocv_bootstrap_saveFail cfg env disk vs nn hload hscan0 hcreate hsf] at h1
          exact absurd h1 (by simp)
  · -- an index was loaded
    rcases hcs : check_file_changes (metaTable disk.metaFile) env.scan with ⟨n, m, d⟩
    by_cases hne : n = [] ∧ m = [] ∧ d = []
    · obtain ⟨rfl, rfl, rfl⟩ := hne
      have hr1 := gocv_noop cfg env disk vs hload hcs
      rw [hr1] at h1 ⊢
      dsimp only at h1 ⊢
      obtain rfl : v = vs := by simpa using h1.symm
      exact gocv_noop cfg env2 disk v hload (by rw [hscan]; exact hcs)
    · have hne' : n ≠ [] ∨ m ≠ [] ∨ d ≠ [] := by tauto
      rcases hsf : env.saveFails with _ | _
      · have hr1 := gocv_changes_saveOk cfg env disk vs n m d hload hcs hne' hsf
        rw [hr1] at h1 ⊢
        dsimp only at h1 ⊢
        obtain rfl : v = (update_vectorstore cfg env vs n m d).vectorstore := by
          simpa using h1.symm
        refine gocv_noop cfg env2
          ⟨IndexFile.stored (update_vectorstore cfg env vs n m d).vectorstore,
            update_file_metadata env disk.metaFile (n ++ m)⟩ _ rfl ?_
        rw [hscan]
        exact check_file_changes_eq_nil hnd
          (tableMatchesScan_incremental env disk.metaFile n m d hcs)
      · rw [gocv_changes_saveFail cfg env disk vs n m d hload hcs hne' hsf] at h1
        exact absurd h1 (by simp)

/-! ### Sample data for concrete witnesses -/

def fiA : FileInfo := ⟨"/d/a.pdf", 10, 100, "h1", some "t0"⟩

def fiA2 : FileInfo := ⟨"/d/a.pdf", 12, 100, "h2", none⟩

def fiB : FileInfo := ⟨"/d/b.pdf", 5, 50, "hb", none⟩

def fiC : FileInfo := ⟨"/d/c.pdf", 7, 70, "hcc", some "t0"⟩

def fiF : FileInfo := ⟨"/d/f.pdf", 3, 30, "hf", none⟩

def fiG : FileInfo := ⟨"/d/g.pdf", 4, 40, "hg", none⟩

/-- Sample persisted table: `a.pdf` (to be modified) and `c.pdf` (to be
deleted). -/
def storedSample : FingerprintTable := [("a.pdf", fiA), ("c.pdf", fiC)]

/-- Sample scan: `a.pdf` with a changed hash, plus the new `b.pdf`. -/
def currentSample : FingerprintTable := [("a.pdf", fiA2), ("b.pdf", fiB)]

/-- One scanned file `f.pdf` whose load yields a single chunk; no injected
failures. -/
def envHealthy : Env :=
  { scan := [("f.pdf", fiF)], load := fun _ => LoadResult.ok ["cf"],
    addFails := false, fromDocsFails := false, mergeFails := false,
    saveFails := false, now := "T1" }

/-- Claim C1.  `check_file_changes` classifies a scanned path absent from the
table as new, a scanned path whose stored hash or modified time differs as
modified, a table path absent from the scan as deleted, and a path present
and unchanged in both fields as none of the three. -/
theorem check_file_changes_classification (stored current : FingerprintTable)
    (hc : (current.map Prod.fst).Nodup) (p : String) :
    (p ∈ (check_file_changes stored current).1 ↔
      (lookupTable current p).isSome = true ∧ lookupTable stored p = none) ∧
    (p ∈ (check_file_changes stored current).2.1 ↔
      ∃ fi si, lookupTable current p = some fi ∧ lookupTable stored p = some si ∧
        (fi.hash ≠ si.hash ∨ fi.modified_time ≠ si.modified_time)) ∧
    (p ∈ (check_file_changes stored current).2.2 ↔
      (lookupTable stored p).isSome = true ∧ lookupTable current p = none) ∧
    (∀ fi si, lookupTable current p = some fi → lookupTable stored p = some si →
      fi.hash = si.hash → fi.modified_time = si.modified_time →
      p ∉ (check_file_changes stored current).1 ∧
      p ∉ (check_file_changes stored current).2.1 ∧
      p ∉ (check_file_changes stored current).2.2) := by
  refine ⟨?_, ?_, ?_, ?_⟩
  · rw [mem_new_files]
    constructor
    · rintro ⟨⟨fi, hm⟩, hn⟩
      refine ⟨?_, hn⟩
      rw [lookupTable_isSome]
      exact List.mem_map.mpr ⟨(p, fi), hm, rfl⟩
    · rintro ⟨hsome, hn⟩
      rcases Option.isSome_iff_exists.mp hsome with ⟨fi, hfi⟩
      exact ⟨⟨fi, lookupTable_mem hfi⟩, hn⟩
  · rw [mem_modified_files]
    constructor
    · rintro ⟨fi, hm, si, hsi, hcnd⟩
      exact ⟨fi, si, lookupTable_eq_some_of_mem hc hm, hsi, hcnd⟩
    · rintro ⟨fi, si, hfi, hsi, hcnd⟩
      exact ⟨fi, lookupTable_mem hfi, si, hsi, hcnd⟩
  · rw [mem_deleted_files]
    constructor
    · rintro ⟨⟨si, hm⟩, hn⟩
      refine ⟨?_, hn⟩
      rw [lookupTable_isSome]
      exact List.mem_map.mpr ⟨(p, si), hm, rfl⟩
    · rintro ⟨hsome, hn⟩
      rcases Option.isSome_iff_exists.mp hsome with ⟨si, hsi⟩
      exact ⟨⟨si, lookupTable_mem hsi⟩, hn⟩
  · intro fi si hfi hsi hh hm
    refine ⟨?_, ?_, ?_⟩
    · rw [mem_new_files]
      rintro ⟨-, hn⟩
      rw [hsi] at hn
      cases hn
    · rw [mem_modified_files]
      rintro ⟨fi', hm', si', hsi', hcnd⟩
      have hfi' := lookupTable_eq_some_of_mem hc hm'
      rw [hfi] at hfi'
      injection hfi' with hfi'
      rw [hsi] at hsi'
      injection hsi' with hsi'
      subst hfi'
      subst hsi'
      rcases hcnd with h | h
      · exact h hh
      · exact h hm
    · rw [mem_deleted_files]
      rintro ⟨-, hn⟩
      rw [hfi] at hn
      cases hn

/-- Witness for C1 on the sample tables: `b.pdf` is new, `a.pdf` (changed
hash) is modified, `c.pdf` is deleted. -/
theorem check_file_changes_classification_witness :
    "b.pdf" ∈ (check_file_changes storedSample currentSample).1 ∧
    "a.pdf" ∈ (check_file_changes storedSample currentSample).2.1 ∧
    "c.pdf" ∈ (check_file_changes storedSample currentSample).2.2 := by
  refine ⟨?_, ?_, ?_⟩
  · exact (check_file_changes_classification storedSample currentSample
      (by decide) "b.pdf").1.mpr (by decide)
  · exact (check_file_changes_classification storedSample currentSample
      (by decide) "a.pdf").2.1.mpr ⟨fiA2, fiA, by decide, by decide, by decide⟩
  · exact (check_file_changes_classification storedSample currentSample
      (by decide) "c.pdf").2.2.1.mpr (by decide)

/-- Counterexample to C2 as stated: with `rebuild_on_delete=True` and
`delete_threshold=0`, an applied change set with one new file and no deleted
files satisfies "`rebuild_on_delete` enabled and `|deleted| ≥ threshold`"
(0 ≥ 0), yet the rebuild path is not invoked: the code only evaluates the
threshold inside the `if deleted_files:` guard. -/
theorem update_vectorstore_rebuild_iff_cex :
    (Config.mk true 0).rebuild_on_delete = true ∧
    ((([] : List String).length : Int) ≥ (Config.mk true 0).delete_threshold) ∧
    (update_vectorstore ⟨true, 0⟩ envHealthy [] ["f.pdf"] [] []).rebuildInvoked
      = false := by
  refine ⟨rfl, by decide, rfl⟩

/-- Claim C2, amended.  The rebuild path of `update_vectorstore` is invoked
iff the deleted list is non-empty, `rebuild_on_delete` is enabled and
`|deleted| ≥ delete_threshold` (so, for any `delete_threshold ≥ 1`, exactly
as the original claim states: e.g. threshold 3 with 2 deleted files does not
rebuild, with 3 it does). -/
theorem update_vectorstore_rebuild_iff (cfg : Config) (env : Env) (vs : Index)
    (n m d : List String) :
    (update_vectorstore cfg env vs n m d).rebuildInvoked = true ↔
      (d ≠ [] ∧ cfg.rebuild_on_delete = true ∧
        (d.length : Int) ≥ cfg.delete_threshold) := by
  unfold update_vectorstore
  by_cases h : d ≠ [] ∧ cfg.rebuild_on_delete = true ∧
      (d.length : Int) ≥ cfg.delete_threshold
  · rcases hr : rebuild_vectorstore_from_existing_files env with ⟨_ | r, nn⟩ <;>
      simp [h, hr]
  · simp [h]

/-- The config of the C3 scenario: rebuild on deletions, threshold 3. -/
def cfgThreshold3 : Config := ⟨true, 3⟩

/-- Counterexample to C3 as stated: on the rebuild path with a non-empty
`new` list, the rebuilt index does not equal the chunks of the current scan
ingested once — the new file's chunks are added a second time by the
incremental-add block that runs after the rebuild. -/
theorem rebuild_ingests_once_cex :
    ((["g.pdf", "h.pdf", "i.pdf"] : List String) ≠ [] ∧
      cfgThreshold3.rebuild_on_delete = true ∧
      (((["g.pdf", "h.pdf", "i.pdf"] : List String).length : Int) ≥
        cfgThreshold3.delete_threshold)) ∧
    (update_vectorstore cfgThreshold3 envHealthy [⟨"old.pdf", "co"⟩]
        ["f.pdf"] [] ["g.pdf", "h.pdf", "i.pdf"]).vectorstore ≠
      load_and_split_documents envHealthy (envHealthy.scan.map Prod.fst) := by
  refine ⟨by decide, ?_⟩
  intro h
  exact absurd h (by decide)

/-- Claim C3, amended.  On the rebuild path (when the rebuild succeeds and the
incremental add does not raise), the loaded index is discarded and the result
is the chunks of every currently scanned file followed by a second copy of the
`new ∪ modified` files' chunks; only when `new ∪ modified` is empty is each
file's content ingested exactly once. -/
theorem rebuild_path_index_content (cfg : Config) (env : Env) (vs : Index)
    (n m d : List String)
    (hreb : d ≠ [] ∧ cfg.rebuild_on_delete = true ∧
      (d.length : Int) ≥ cfg.delete_threshold)
    (hscan : env.scan ≠ [])
    (hall : load_and_split_documents env (env.scan.map Prod.fst) ≠ [])
    (hfd : env.fromDocsFails = false)
    (hadd : env.addFails = false) :
    (update_vectorstore cfg env vs n m d).vectorstore =
      load_and_split_documents env (env.scan.map Prod.fst) ++
        load_and_split_documents env (n ++ m) := by
  have hrb : rebuild_vectorstore_from_existing_files env =
      (some (load_and_split_documents env (env.scan.map Prod.fst)),
        (load_and_split_documents env (env.scan.map Prod.fst)).length) := by
    simp [rebuild_vectorstore_from_existing_files, create_vectorstore_from_files,
      hscan, hall, hfd]
  unfold update_vectorstore
  rw [if_pos hreb, hrb]
  by_cases hnm : n ++ m = []
  · simp [add_new_documents, hnm, load_and_split_documents]
  · by_cases hd : load_and_split_documents env (n ++ m) = []
    · simp [add_new_documents, hnm, hd]
    · simp [add_new_documents, hnm, hd, hadd]

/-- Witness for the amended C3 in the three-deletions scenario: the result is
the scan's chunks followed by the new file's chunks again (duplicated). -/
theorem rebuild_path_index_content_witness :
    ((["g.pdf", "h.pdf", "i.pdf"] : List String) ≠ [] ∧
      cfgThreshold3.rebuild_on_delete = true ∧
      (((["g.pdf", "h.pdf", "i.pdf"] : List String).length : Int) ≥
        cfgThreshold3.delete_threshold)) ∧
    (update_vectorstore cfgThreshold3 envHealthy [⟨"old.pdf", "co"⟩]
        ["f.pdf"] [] ["g.pdf", "h.pdf", "i.pdf"]).vectorstore =
      load_and_split_documents envHealthy (envHealthy.scan.map Prod.fst) ++
        load_and_split_documents envHealthy (["f.pdf"] ++ []) := by
  refine ⟨by decide, ?_⟩
  exact rebuild_path_index_content cfgThreshold3 envHealthy [⟨"old.pdf", "co"⟩]
    ["f.pdf"] [] ["g.pdf", "h.pdf", "i.pdf"] (by decide) (by decide)
    (by decide) rfl rfl

/-- Fresh durable state: no index, no metadata file. -/
def diskEmpty : Disk := ⟨IndexFile.absent, MetaFile.absent⟩

/-- Two scanned files; loading `g.pdf` raises and is skipped. -/
def envPartialFail : Env :=
  { scan := [("f.pdf", fiF), ("g.pdf", fiG)],
    load := fun p => if p = "g.pdf" then LoadResult.failed else LoadResult.ok ["cf"],
    addFails := false, fromDocsFails := false, mergeFails := false,
    saveFails := false, now := "T1" }

/-- Counterexample to C4 as stated: after a completed bootstrap pass in which
`g.pdf` failed to load and was skipped, the returned index holds no chunk of
`g.pdf`, yet the persisted fingerprint table does contain an entry for
`g.pdf` — the metadata update records every processed-and-still-present file,
not only the successfully ingested ones. -/
theorem fingerprint_iff_ingested_cex :
    (get_or_create_vectorstore ⟨true, 1⟩ envPartialFail diskEmpty).result =
      Except.ok (some [⟨"f.pdf", "cf"⟩]) ∧
    (∀ c ∈ ([⟨"f.pdf", "cf"⟩] : Index), c.source_file ≠ "g.pdf") ∧
    (lookupTable (metaTable
        (get_or_create_vectorstore ⟨true, 1⟩ envPartialFail diskEmpty).disk.metaFile)
      "g.pdf").isSome = true := by
  refine ⟨rfl, by decide, rfl⟩

/-- Claim C4, amended.  After a completed synchronization pass that returned
an index, the persisted fingerprint table contains an entry for a path iff the
path is in the current scan and either already had an entry or was in the
pass's processed list (all scanned files on bootstrap, `new ++ modified`
otherwise) — regardless of whether its content was successfully ingested; in
particular deleted files' entries are removed, but a file whose load failed
still receives an entry. -/
theorem fingerprint_membership (cfg : Config) (env : Env) (disk : Disk)
    (v : Index) (p : String)
    (h : (get_or_create_vectorstore cfg env disk).result = Except.ok (some v)) :
    (lookupTable (metaTable
        (get_or_create_vectorstore cfg env disk).disk.metaFile) p).isSome = true ↔
      ((lookupTable env.scan p).isSome = true ∧
        ((lookupTable (metaTable disk.metaFile) p).isSome = true ∨
          p ∈ (match load_vectorstore disk.indexFile with
            | none => env.scan.map Prod.fst
            | some _ =>
              (check_file_changes (metaTable disk.metaFile) env.scan).1 ++
                (check_file_changes (metaTable disk.metaFile) env.scan).2.1))) := by
  rcases hload : load_vectorstore disk.indexFile with _ | vs
  · by_cases hscan0 : env.scan = []
    · rw [gocv_bootstrap_emptyScan cfg env disk hload hscan0] at h
      exact absurd h (by simp)
    · rcases hcreate : create_vectorstore_from_files env (env.scan.map Prod.fst)
        with ⟨_ | vs, nn⟩
      · rw [gocv_bootstrap_createNone cfg env disk nn hload hscan0 hcreate] at h
        exact absurd h (by simp)
      · rcases hsf : env.saveFails with _ | _
        · rw [gocv_bootstrap_ok cfg env disk vs nn hload hscan0 hcreate hsf]
          dsimp only
          rw [lookup_update_file_metadata_isSome]
        · rw [gocv_bootstrap_saveFail cfg env disk vs nn hload hscan0 hcreate hsf] at h
          exact absurd h (by simp)
  · rcases hcs : check_file_changes (metaTable disk.metaFile) env.scan with ⟨n, m, d⟩
    by_cases hne : n = [] ∧ m = [] ∧ d = []
    · obtain ⟨rfl, rfl, rfl⟩ := hne
      rw [gocv_noop cfg env disk vs hload hcs]
      dsimp only
      constructor
      · intro hst
        refine ⟨?_, Or.inl hst⟩
        rcases Option.isSome_iff_exists.mp hst with ⟨si, hsi⟩
        by_contra hsc
        have hnone : lookupTable env.scan p = none := by
          rcases hx : lookupTable env.scan p with _ | y
          · rfl
          · exact absurd (by simp [hx]) hsc
        have hd : p ∈ (check_file_changes (metaTable disk.metaFile) env.scan).2.2 :=
          (mem_deleted_files _ _ p).mpr ⟨⟨si, lookupTable_mem hsi⟩, hnone⟩
        rw [hcs] at hd
        simp at hd
      · rintro ⟨-, hst | hst⟩
        · exact hst
        · simp at hst
    · have hne' : n ≠ [] ∨ m ≠ [] ∨ d ≠ [] := by tauto
      rcases hsf : env.saveFails with _ | _
      · rw [gocv_changes_saveOk cfg env disk vs n m d hload hcs hne' hsf]
        dsimp only
        rw [lookup_update_file_metadata_isSome]
      · rw [gocv_changes_saveFail cfg env disk vs n m d hload hcs hne' hsf] at h
        exact absurd h (by simp)

/-- Witness for the amended C4: in the partial-failure bootstrap, `g.pdf`
(skipped by the loader) still has a fingerprint entry after the pass. -/
theorem fingerprint_membership_witness :
    (lookupTable (metaTable
        (get_or_create_vectorstore ⟨true, 1⟩ envPartialFail diskEmpty).disk.metaFile)
      "g.pdf").isSome = true :=
  (fingerprint_membership ⟨true, 1⟩ envPartialFail diskEmpty [⟨"f.pdf", "cf"⟩]
      "g.pdf" rfl).mpr ⟨rfl, Or.inr (by decide)⟩

/-- Witness for C5: bootstrap once from an empty store, then re-run with the
same filesystem — the second run is a pure no-op returning the same index. -/
theorem sync_idempotent_witness :
    get_or_create_vectorstore ⟨true, 1⟩ envHealthy
        (get_or_create_vectorstore ⟨true, 1⟩ envHealthy diskEmpty).disk =
      ⟨Except.ok (some [⟨"f.pdf", "cf"⟩]),
        (get_or_create_vectorstore ⟨true, 1⟩ envHealthy diskEmpty).disk,
        false, 0, 0⟩ :=
  sync_idempotent ⟨true, 1⟩ envHealthy envHealthy diskEmpty
    [⟨"f.pdf", "cf"⟩] (by decide) rfl rfl

/-- Claim C6.  Saving any (in particular any non-empty) fingerprint table and
loading it back yields the original table, with no warning logged. -/
theorem metadata_roundtrip (t : FingerprintTable) (h : t ≠ []) :
    get_file_metadata (save_file_metadata t) = (t, false) := by
  simp [get_file_metadata, save_file_metadata, decodeTable_encodeTable]

/-- Witness for C6 on the sample table. -/
theorem metadata_roundtrip_witness :
    storedSample ≠ [] ∧
    get_file_metadata (save_file_metadata storedSample) = (storedSample, false) :=
  ⟨by simp [storedSample], metadata_roundtrip storedSample (by simp [storedSample])⟩

/-- Claim C7.  Loading a metadata file that exists but holds invalid JSON
returns the empty mapping and logs a warning; the exception is caught, never
propagated (the model's `get_file_metadata` is total). -/
theorem corrupt_metadata_nonfatal :
    get_file_metadata MetaFile.corrupt = ([], true) := rfl

/-- One scanned new file; `add_documents` raises and the fallback
`FAISS.from_documents` raises as well; saving succeeds. -/
def envAddFallbackFail : Env :=
  { scan := [("f.pdf", fiF)], load := fun _ => LoadResult.ok ["cf"],
    addFails := true, fromDocsFails := true, mergeFails := false,
    saveFails := false, now := "T1" }

/-- A persisted index holding one old chunk, with no metadata file. -/
def diskWithOld : Disk := ⟨IndexFile.stored [⟨"old.pdf", "co"⟩], MetaFile.absent⟩

/-- Counterexample to C8 as stated: when the incremental add and its single
fallback both fail, the pass still ends by updating the fingerprint table for
the new∪modified files — the table on disk after the pass differs from the one
before, contradicting "the previously persisted index and fingerprint table
are not modified by the failed pass" (the index content is indeed unchanged). -/
theorem incremental_add_fallback_cex :
    (get_or_create_vectorstore ⟨true, 1⟩ envAddFallbackFail diskWithOld).fallbacks
      = 1 ∧
    (get_or_create_vectorstore ⟨true, 1⟩ envAddFallbackFail diskWithOld).result =
      Except.ok (some [⟨"old.pdf", "co"⟩]) ∧
    metaTable (get_or_create_vectorstore ⟨true, 1⟩
        envAddFallbackFail diskWithOld).disk.metaFile ≠
      metaTable diskWithOld.metaFile := by
  refine ⟨rfl, rfl, by decide⟩

/-- Claim C8, amended.  If the incremental add raises, exactly one fallback
attempt (build-fresh-and-merge) is made; if the fallback's build or merge also
fails, no further retry happens and the in-memory index is returned with its
content unchanged — but the pass then continues normally: the index is
re-persisted and the fingerprint table is updated for the `new ∪ modified`
files, recording them as processed despite the failure. -/
theorem incremental_add_fallback (cfg : Config) (env : Env) (disk : Disk)
    (vs : Index) (n m : List String)
    (hload : load_vectorstore disk.indexFile = some vs)
    (hcs : check_file_changes (metaTable disk.metaFile) env.scan = (n, m, []))
    (hdocs : load_and_split_documents env (n ++ m) ≠ [])
    (hadd : env.addFails = true)
    (hfail : env.fromDocsFails = true ∨ env.mergeFails = true)
    (hsf : env.saveFails = false) :
    (get_or_create_vectorstore cfg env disk).fallbacks = 1 ∧
    (get_or_create_vectorstore cfg env disk).result = Except.ok (some vs) ∧
    (get_or_create_vectorstore cfg env disk).disk.indexFile = IndexFile.stored vs ∧
    (get_or_create_vectorstore cfg env disk).disk.metaFile =
      update_file_metadata env disk.metaFile (n ++ m) := by
  have hnm : n ++ m ≠ [] := fun hc => hdocs (by rw [hc]; rfl)
  have hne : n ≠ [] ∨ m ≠ [] ∨ ([] : List String) ≠ [] := by
    by_cases hn : n = []
    · refine Or.inr (Or.inl ?_)
      intro hm
      exact hnm (by rw [hn, hm]; rfl)
    · exact Or.inl hn
  have hu : update_vectorstore cfg env vs n m [] =
      ⟨vs, false, (load_and_split_documents env (n ++ m)).length +
        (load_and_split_documents env (n ++ m)).length, 1⟩ := by
    unfold update_vectorstore
    rw [if_neg (by simp)]
    rcases hfail with hf | hf
    · simp [add_new_documents, hnm, hdocs, hadd, create_vectorstore_from_files, hf]
    · by_cases hfd : env.fromDocsFails = true
      · simp [add_new_documents, hnm, hdocs, hadd, create_vectorstore_from_files, hfd]
      · have hfd' : env.fromDocsFails = false := by
          simpa using hfd
        simp [add_new_documents, hnm, hdocs, hadd, create_vectorstore_from_files,
          hfd', hf]
  rw [gocv_changes_saveOk cfg env disk vs n m [] hload hcs hne hsf, hu]
  exact ⟨rfl, rfl, rfl, rfl⟩

/-- Witness for the amended C8 in the double-failure scenario. -/
theorem incremental_add_fallback_witness :
    (get_or_create_vectorstore ⟨true, 1⟩ envAddFallbackFail diskWithOld).fallbacks
      = 1 ∧
    (get_or_create_vectorstore ⟨true, 1⟩ envAddFallbackFail diskWithOld).result =
      Except.ok (some [⟨"old.pdf", "co"⟩]) ∧
    (get_or_create_vectorstore ⟨true, 1⟩
        envAddFallbackFail diskWithOld).disk.indexFile =
      IndexFile.stored [⟨"old.pdf", "co"⟩] ∧
    (get_or_create_vectorstore ⟨true, 1⟩
        envAddFallbackFail diskWithOld).disk.metaFile =
      update_file_metadata envAddFallbackFail diskWithOld.metaFile
        (["f.pdf"] ++ []) :=
  incremental_add_fallback ⟨true, 1⟩ envAddFallbackFail diskWithOld
    [⟨"old.pdf", "co"⟩] ["f.pdf"] [] rfl rfl (by decide) rfl (Or.inl rfl) rfl

/-- Like the healthy environment, but `save_local` raises. -/
def envSaveFail : Env :=
  { scan := [("f.pdf", fiF)], load := fun _ => LoadResult.ok ["cf"],
    addFails := false, fromDocsFails := false, mergeFails := false,
    saveFails := true, now := "T1" }

/-- Claim C9.  An error outcome of a synchronization pass arises only from a
`save_vectorstore` failure (by construction the error is the result handed to
the caller, i.e. it propagates), and whenever saving fails, no pass modifies
the durable state: the fingerprint table on disk stays exactly as before. -/
theorem save_failure_preserves_metadata (cfg : Config) (env : Env) (disk : Disk) :
    (∀ e, (get_or_create_vectorstore cfg env disk).result = Except.error e →
      env.saveFails = true) ∧
    (env.saveFails = true →
      (get_or_create_vectorstore cfg env disk).disk = disk) := by
  constructor
  · intro e h
    rcases hload : load_vectorstore disk.indexFile with _ | vs
    · by_cases hscan0 : env.scan = []
      · rw [gocv_bootstrap_emptyScan cfg env disk hload hscan0] at h
        exact absurd h (by simp)
      · rcases hcreate : create_vectorstore_from_files env (env.scan.map Prod.fst)
          with ⟨_ | vs, nn⟩
        · rw [gocv_bootstrap_createNone cfg env disk nn hload hscan0 hcreate] at h
          exact absurd h (by simp)
        · rcases hsf : env.saveFails with _ | _
          · rw [gocv_bootstrap_ok cfg env disk vs nn hload hscan0 hcreate hsf] at h
            exact absurd h (by simp)
          · rfl
    · rcases hcs : check_file_changes (metaTable disk.metaFile) env.scan
        with ⟨n, m, d⟩
      by_cases hne : n = [] ∧ m = [] ∧ d = []
      · obtain ⟨rfl, rfl, rfl⟩ := hne
        rw [gocv_noop cfg env disk vs hload hcs] at h
        exact absurd h (by simp)
      · have hne' : n ≠ [] ∨ m ≠ [] ∨ d ≠ [] := by tauto
        rcases hsf : env.saveFails with _ | _
        · rw [gocv_changes_saveOk cfg env disk vs n m d hload hcs hne' hsf] at h
          exact absurd h (by simp)
        · rfl
  · intro hsf
    rcases hload : load_vectorstore disk.indexFile with _ | vs
    · by_cases hscan0 : env.scan = []
      · rw [gocv_bootstrap_emptyScan cfg env disk hload hscan0]
      · rcases hcreate : create_vectorstore_from_files env (env.scan.map Prod.fst)
          with ⟨_ | vs, nn⟩
        · rw [gocv_bootstrap_createNone cfg env disk nn hload hscan0 hcreate]
        · rw [gocv_bootstrap_saveFail cfg env disk vs nn hload hscan0 hcreate hsf]
    · rcases hcs : check_file_changes (metaTable disk.metaFile) env.scan
        with ⟨n, m, d⟩
      by_cases hne : n = [] ∧ m = [] ∧ d = []
      · obtain ⟨rfl, rfl, rfl⟩ := hne
        rw [gocv_noop cfg env disk vs hload hcs]
      · have hne' : n ≠ [] ∨ m ≠ [] ∨ d ≠ [] := by tauto
        rw [gocv_changes_saveFail cfg env disk vs n m d hload hcs hne' hsf]

/-- Witness for C9: a bootstrap pass whose save raises leaves the durable
state untouched, and its error outcome indeed certifies the save failure. -/
theorem save_failure_preserves_metadata_witness :
    envSaveFail.saveFails = true ∧
    (get_or_create_vectorstore ⟨true, 1⟩ envSaveFail diskEmpty).disk = diskEmpty :=
  ⟨(save_failure_preserves_metadata ⟨true, 1⟩ envSaveFail diskEmpty).1 () rfl,
    (save_failure_preserves_metadata ⟨true, 1⟩ envSaveFail diskEmpty).2 rfl⟩

/-- An empty source directory (or a missing one: the scan is empty either
way). -/
def envEmptyScan : Env :=
  { scan := [], load := fun _ => LoadResult.ok [],
    addFails := false, fromDocsFails := false, mergeFails := false,
    saveFails := false, now := "T1" }

/-- Claim C10.  With no usable persisted index and an empty scan,
`get_or_create_vectorstore` returns `None` without building an index,
embedding anything, or writing the index or fingerprint files. -/
theorem no_files_no_index (cfg : Config) (env : Env) (disk : Disk)
    (hload : load_vectorstore disk.indexFile = none)
    (hscan : env.scan = []) :
    get_or_create_vectorstore cfg env disk = ⟨Except.ok none, disk, false, 0, 0⟩ :=
  gocv_bootstrap_emptyScan cfg env disk hload hscan

/-- Witness for C10. -/
theorem no_files_no_index_witness :
    get_or_create_vectorstore ⟨true, 1⟩ envEmptyScan diskEmpty =
      ⟨Except.ok none, diskEmpty, false, 0, 0⟩ :=
  no_files_no_index ⟨true, 1⟩ envEmptyScan diskEmpty rfl rfl

end VectorStore
